import Mathlib

/-!
Verification of the GEX (gamma exposure) derivation engine of GEX-Levels,
a shallow embedding of `gex_calculations.py`.  Numeric values are modelled
as rationals; `round(x, 3)` is modelled as rounding to the nearest
thousandth.  A pandas DataFrame of option contracts is modelled as a list
of rows plus the two optional GEX columns that the calculator adds, and a
raised exception is modelled as `Except.error` (or `none` for a failed
constructor).
-/

/-- One option contract row of the input table. -/
structure OptionRow where
  option_type : String
  strike : ℚ
  gamma : ℚ
  open_interest : ℚ
  volume : ℚ
  expiration : Int
  updated : Int
  deriving DecidableEq

/-- The quantity basis a GEX value is computed from. -/
inductive QuantityType where
  | open_interest
  | volume
  deriving DecidableEq

/-- `row[quantity_type]`: the quantity field selected by the basis. -/
def OptionRow.quantity (row : OptionRow) : QuantityType → ℚ
  | .open_interest => row.open_interest
  | .volume => row.volume

/-- `calculate_gex_value`: per-contract gamma exposure,
`underlying_price * gamma * row[quantity_type] * contract_size * underlying_price * 0.01`,
negated when `option_type == 'put'`. -/
def calculate_gex_value (row : OptionRow) (underlying_price contract_size : ℚ)
    (quantity_type : QuantityType) : ℚ :=
  let gex := underlying_price * row.gamma * row.quantity quantity_type *
    contract_size * underlying_price * (1 / 100)
  if row.option_type = "put" then -gex else gex

/-- The options DataFrame: the base contract rows together with the two GEX
columns, which are absent (`none`) until `apply_gex_values_to_df` adds them. -/
structure DataFrame where
  rows : List OptionRow
  OI_GEX : Option (List ℚ)
  vol_GEX : Option (List ℚ)
  deriving DecidableEq

/-- `apply_gex_values_to_df`: writes the `OI_GEX` and `vol_GEX` columns of the
DataFrame by applying `calculate_gex_value` row-wise. -/
def apply_gex_values_to_df (df : DataFrame) (underlying_price contract_size : ℚ) :
    DataFrame :=
  { df with
    OI_GEX := some (df.rows.map fun row =>
      calculate_gex_value row underlying_price contract_size .open_interest)
    vol_GEX := some (df.rows.map fun row =>
      calculate_gex_value row underlying_price contract_size .volume) }

/-- `round(x, 3)`: rounding to the nearest thousandth. -/
def round3 (x : ℚ) : ℚ := (round (x * 1000) : ℤ) / 1000

/-- The ascending list of distinct strikes of a (strike, value) table:
the group keys produced by `groupby('strike')`. -/
def strikeKeys (pairs : List (ℚ × ℚ)) : List ℚ :=
  (pairs.map (·.1)).toFinset.sort (· ≤ ·)

/-- `calculate_gex_by_strike`: group the (strike, GEX) table by strike, sum
each group, divide by `10**9` and round to 3 decimals; the index is the
ascending list of distinct strikes. -/
def calculate_gex_by_strike (pairs : List (ℚ × ℚ)) : List (ℚ × ℚ) :=
  (strikeKeys pairs).map fun k =>
    (k, round3 (((pairs.filter (fun p => p.1 = k)).map (·.2)).sum / 10 ^ 9))

/-- `calculate_net_gex`: the sum of a GEX column, divided by `10**9` and
rounded to 3 decimals. -/
def calculate_net_gex (col : List ℚ) : ℚ :=
  round3 (col.sum / 10 ^ 9)

/-- `np.sign` on a rational. -/
def npSign (x : ℚ) : ℤ :=
  if 0 < x then 1 else if x < 0 then -1 else 0

/-- The scan of `calculate_zero_gamma`: `np.diff(np.sign(values)) == 2`
selects adjacent pairs whose signs go from -1 to +1, and indexing the
result with `[0]` keeps the first such pair. -/
def findZeroCross : List (ℚ × ℚ) → Option ((ℚ × ℚ) × (ℚ × ℚ))
  | [] => none
  | [_] => none
  | a :: b :: rest =>
    if npSign b.2 - npSign a.2 = 2 then some (a, b)
    else findZeroCross (b :: rest)

/-- `calculate_zero_gamma` on the volume series: `None` when no
negative-to-positive sign crossing exists, otherwise the linear
interpolation `pos_strike - (pos_strike - neg_strike) * pos_gamma / (pos_gamma - neg_gamma)`
at the first crossing. -/
def calculate_zero_gamma (series : List (ℚ × ℚ)) : Option ℚ :=
  (findZeroCross series).map fun pq =>
    pq.2.1 - (pq.2.1 - pq.1.1) * pq.2.2 / (pq.2.2 - pq.1.2)

/-- Tail loop of `idxmax`: key of the first strictly-greatest value. -/
def idxmaxGo (best : ℚ × ℚ) : List (ℚ × ℚ) → ℚ
  | [] => best.1
  | p :: rest => if best.2 < p.2 then idxmaxGo p rest else idxmaxGo best rest

/-- `pandas.Series.idxmax`: index of the first occurrence of the maximum
value; raises on an empty series. -/
def idxmax : List (ℚ × ℚ) → Except String ℚ
  | [] => .error "attempt to get argmax of an empty sequence"
  | p :: rest => .ok (idxmaxGo p rest)

/-- Tail loop of `idxmin`: key of the first strictly-least value. -/
def idxminGo (best : ℚ × ℚ) : List (ℚ × ℚ) → ℚ
  | [] => best.1
  | p :: rest => if p.2 < best.2 then idxminGo p rest else idxminGo best rest

/-- `pandas.Series.idxmin`: index of the first occurrence of the minimum
value; raises on an empty series. -/
def idxmin : List (ℚ × ℚ) → Except String ℚ
  | [] => .error "attempt to get argmax of an empty sequence"
  | p :: rest => .ok (idxminGo p rest)

/-- `calculate_major_gamma`: when either series attribute is still `None`
the method returns early and the four attributes keep their `None` values;
otherwise it assigns `idxmax`/`idxmin` of the two series in source order
(positive OI, positive volume, negative OI, negative volume), and an empty
series makes the underlying argmax raise. -/
def calculate_major_gamma (vol_spot_GEXs OI_spot_GEXs : Option (List (ℚ × ℚ))) :
    Except String (Option ℚ × Option ℚ × Option ℚ × Option ℚ) :=
  match vol_spot_GEXs, OI_spot_GEXs with
  | some volS, some oiS => do
    let majPosOI ← idxmax oiS
    let majPosVol ← idxmax volS
    let majNegOI ← idxmin oiS
    let majNegVol ← idxmin volS
    pure (some majPosOI, some majPosVol, some majNegOI, some majNegVol)
  | _, _ => pure (none, none, none, none)

/-- The result bundle populated by `calculate_gex_data`. -/
structure Snapshot where
  vol_spot_GEXs : List (ℚ × ℚ)
  OI_spot_GEXs : List (ℚ × ℚ)
  major : Except String (Option ℚ × Option ℚ × Option ℚ × Option ℚ)
  net_OI_GEX : ℚ
  net_vol_GEX : ℚ
  zero_gamma : Option ℚ

/-- `calculate_gex_data`: the full orchestration.  It first mutates the
DataFrame by adding the two GEX columns, then aggregates by strike, takes
the extrema, the net values and the volume zero gamma.  The result is the
mutated DataFrame (the caller's table) together with the snapshot fields. -/
def calculate_gex_data (df : DataFrame) (underlying_price contract_size : ℚ) :
    DataFrame × Snapshot :=
  let df₁ := apply_gex_values_to_df df underlying_price contract_size
  let oiCol := df.rows.map fun row =>
    calculate_gex_value row underlying_price contract_size .open_interest
  let volCol := df.rows.map fun row =>
    calculate_gex_value row underlying_price contract_size .volume
  let strikes := df.rows.map (·.strike)
  let volSpot := calculate_gex_by_strike (strikes.zip volCol)
  let oiSpot := calculate_gex_by_strike (strikes.zip oiCol)
  (df₁,
   { vol_spot_GEXs := volSpot
     OI_spot_GEXs := oiSpot
     major := calculate_major_gamma (some volSpot) (some oiSpot)
     net_OI_GEX := calculate_net_gex oiCol
     net_vol_GEX := calculate_net_gex volCol
     zero_gamma := calculate_zero_gamma volSpot })

/-- The `GEXCalculator` state right after `__init__`. -/
structure GEXCalculatorState where
  data : DataFrame
  updated : Int
  underlying_price : ℚ
  contract_size : ℚ
  deriving DecidableEq

/-- `GEXCalculator.__init__`: stores the table, the spot price and the
contract size, and reads `data['updated'].iloc[0]`, which raises an
`IndexError` on an empty table (modelled as `none`). -/
def GEXCalculator.init (data : DataFrame) (underlying_price contract_size : ℚ) :
    Option GEXCalculatorState :=
  (data.rows.head?).map fun row₀ =>
    { data := data
      updated := row₀.updated
      underlying_price := underlying_price
      contract_size := contract_size }

/-- A negative-to-positive sign crossing between positions `i` and `i + 1`
of a series. -/
def IsCrossAt (series : List (ℚ × ℚ)) (i : ℕ) : Prop :=
  i + 1 < series.length ∧
    npSign (series.getD i (0, 0)).2 = -1 ∧
    npSign (series.getD (i + 1) (0, 0)).2 = 1

instance (series : List (ℚ × ℚ)) (i : ℕ) : Decidable (IsCrossAt series i) :=
  inferInstanceAs (Decidable (_ ∧ _ ∧ _))

/-! ### Helper lemmas about `npSign` -/

lemma npSign_eq_neg_one_iff (x : ℚ) : npSign x = -1 ↔ x < 0 := by
  unfold npSign
  split_ifs with h₁ h₂
  · exact iff_of_false (by decide) (not_lt.mpr h₁.le)
  · exact iff_of_true rfl h₂
  · exact iff_of_false (by decide) h₂

lemma npSign_eq_one_iff (x : ℚ) : npSign x = 1 ↔ 0 < x := by
  unfold npSign
  split_ifs with h₁ h₂
  · exact iff_of_true rfl h₁
  · exact iff_of_false (by decide) h₁
  · exact iff_of_false (by decide) h₁

lemma npSign_diff_eq_two_iff (a b : ℚ) :
    npSign b - npSign a = 2 ↔ npSign a = -1 ∧ npSign b = 1 := by
  unfold npSign
  split_ifs <;> decide

/-! ### Claim theorems, first group -/

/-- Claim C1: the per-contract exposure equals
`spot^2 * gamma * quantity(basis) * contract_size * 0.01`, negated exactly
for puts, and the call-typed and put-typed exposures of one row are exact
negations of each other. -/
theorem gex_value_formula (row : OptionRow) (spot size : ℚ)
    (hspot : 0 < spot) (hsize : 0 < size) (basis : QuantityType) :
    calculate_gex_value row spot size basis =
      (if row.option_type = "put" then (-1 : ℚ) else 1) *
        (spot ^ 2 * row.gamma * row.quantity basis * size * (1 / 100)) ∧
    calculate_gex_value { row with option_type := "call" } spot size basis =
      -calculate_gex_value { row with option_type := "put" } spot size basis := by
  constructor
  · by_cases h : row.option_type = "put" <;>
      simp only [calculate_gex_value, h, if_true, if_false, String.reduceEq, reduceIte] <;>
      ring
  · cases basis <;>
      simp only [calculate_gex_value, OptionRow.quantity, String.reduceEq, reduceIte] <;>
      ring

/-- Witness for C1 at a concrete call contract. -/
theorem gex_value_formula_witness :
    calculate_gex_value ⟨"call", 100, 1 / 2, 3, 4, 0, 0⟩ 10 100 .volume = 200 := by
  have h := (gex_value_formula ⟨"call", 100, 1 / 2, 3, 4, 0, 0⟩ 10 100
    (by norm_num) (by norm_num) .volume).1
  rw [h]
  norm_num [OptionRow.quantity, String.reduceEq]
  decide

/-- Claim C9: constructing the calculator fails (the read of
`data['updated'].iloc[0]` raises) exactly when the table has no rows. -/
theorem init_fails_iff_empty (df : DataFrame) (price size : ℚ) :
    GEXCalculator.init df price size = none ↔ df.rows = [] := by
  cases df with
  | mk rows oi vol => cases rows <;> simp [GEXCalculator.init]

/-- Claim C5 counterexample: on an empty (present, non-`None`) pair of
series the major-gamma computation raises the argmax-of-empty error rather
than yielding null extrema. -/
theorem major_gamma_empty_raises :
    calculate_major_gamma (some []) (some []) =
      Except.error "attempt to get argmax of an empty sequence" := rfl

/-- Claim C5 amended: on an empty series the major-gamma computation raises
(the underlying argmax of an empty sequence fails); the four extrema are
null only when the series attributes are still `None`. -/
theorem major_gamma_empty_spec :
    (∀ volS : List (ℚ × ℚ), calculate_major_gamma (some volS) (some []) =
      Except.error "attempt to get argmax of an empty sequence") ∧
    (∀ oiS, calculate_major_gamma none oiS = Except.ok (none, none, none, none)) ∧
    (∀ volS, calculate_major_gamma volS none = Except.ok (none, none, none, none)) := by
  refine ⟨fun volS => rfl, fun oiS => rfl, fun volS => ?_⟩
  cases volS <;> rfl

/-- Claim C6 counterexample: the orchestration mutates the caller's table —
the GEX columns appear on the very DataFrame that was passed in. -/
theorem gex_data_mutates_input :
    (calculate_gex_data ⟨[⟨"call", 100, 1, 1, 1, 0, 0⟩], none, none⟩ 100 100).1 ≠
      ⟨[⟨"call", 100, 1, 1, 1, 0, 0⟩], none, none⟩ := by
  intro h
  have h₂ := congrArg DataFrame.OI_GEX h
  simp [calculate_gex_data, apply_gex_values_to_df] at h₂

/-- Claim C6 amended: the orchestration never changes the base contract
rows (columns and values the caller supplied), but it does write the two
GEX columns into the caller's table. -/
theorem gex_data_preserves_rows (df : DataFrame) (spot size : ℚ) :
    ((calculate_gex_data df spot size).1).rows = df.rows ∧
    ((calculate_gex_data df spot size).1).OI_GEX =
      some (df.rows.map fun row => calculate_gex_value row spot size .open_interest) ∧
    ((calculate_gex_data df spot size).1).vol_GEX =
      some (df.rows.map fun row => calculate_gex_value row spot size .volume) :=
  ⟨rfl, rfl, rfl⟩

/-- Claim C8: the orchestration is deterministic — running it a second
time (on the table the first run produced) gives the identical mutated
table and the identical snapshot. -/
theorem gex_data_deterministic (df : DataFrame) (spot size : ℚ) :
    calculate_gex_data ((calculate_gex_data df spot size).1) spot size =
      calculate_gex_data df spot size := by
  cases df
  rfl

/-! ### The zero-gamma scan -/

lemma isCrossAt_cons_succ (p : ℚ × ℚ) (t : List (ℚ × ℚ)) (i : ℕ) :
    IsCrossAt (p :: t) (i + 1) ↔ IsCrossAt t i := by
  unfold IsCrossAt
  simp only [List.length_cons, List.getD_cons_succ, Nat.add_lt_add_iff_right]

lemma isCrossAt_zero (a b : ℚ × ℚ) (t : List (ℚ × ℚ)) :
    IsCrossAt (a :: b :: t) 0 ↔ npSign a.2 = -1 ∧ npSign b.2 = 1 := by
  unfold IsCrossAt
  simp only [List.length_cons, List.getD_cons_zero, List.getD_cons_succ]
  exact ⟨fun ⟨_, h₂, h₃⟩ => ⟨h₂, h₃⟩, fun ⟨h₂, h₃⟩ => ⟨by omega, h₂, h₃⟩⟩

lemma not_isCrossAt_short (series : List (ℚ × ℚ)) (hlen : series.length < 2) (i : ℕ) :
    ¬ IsCrossAt series i := fun h => by
  obtain ⟨h₁, -, -⟩ := h
  omega

lemma findZeroCross_eq_none_iff (series : List (ℚ × ℚ)) :
    findZeroCross series = none ↔ ∀ i, ¬ IsCrossAt series i := by
  induction series with
  | nil =>
    exact iff_of_true rfl (not_isCrossAt_short [] (by simp))
  | cons a t ih =>
    cases t with
    | nil =>
      exact iff_of_true rfl (not_isCrossAt_short [a] (by simp))
    | cons b t' =>
      have hdef : findZeroCross (a :: b :: t') =
          if npSign b.2 - npSign a.2 = 2 then some (a, b)
          else findZeroCross (b :: t') := rfl
      by_cases hc : npSign b.2 - npSign a.2 = 2
      · rw [hdef, if_pos hc]
        refine iff_of_false (by simp) (fun hall => ?_)
        exact hall 0 ((isCrossAt_zero a b t').mpr ((npSign_diff_eq_two_iff _ _).mp hc))
      · rw [hdef, if_neg hc, ih]
        constructor
        · intro hall i
          cases i with
          | zero =>
            intro h0
            exact hc ((npSign_diff_eq_two_iff _ _).mpr ((isCrossAt_zero a b t').mp h0))
          | succ j =>
            rw [isCrossAt_cons_succ]
            exact hall j
        · intro hall i
          exact fun hcr => hall (i + 1) ((isCrossAt_cons_succ a (b :: t') i).mpr hcr)

lemma findZeroCross_eq_some_of_first (series : List (ℚ × ℚ)) (i : ℕ)
    (h : IsCrossAt series i) (hmin : ∀ j, j < i → ¬ IsCrossAt series j) :
    findZeroCross series = some (series.getD i (0, 0), series.getD (i + 1) (0, 0)) := by
  induction series generalizing i with
  | nil => exact absurd h (not_isCrossAt_short [] (by simp) i)
  | cons a t ih =>
    cases t with
    | nil => exact absurd h (not_isCrossAt_short [a] (by simp) i)
    | cons b t' =>
      have hdef : findZeroCross (a :: b :: t') =
          if npSign b.2 - npSign a.2 = 2 then some (a, b)
          else findZeroCross (b :: t') := rfl
      cases i with
      | zero =>
        obtain ⟨hsa, hsb⟩ := (isCrossAt_zero a b t').mp h
        rw [hdef, if_pos ((npSign_diff_eq_two_iff _ _).mpr ⟨hsa, hsb⟩)]
        rfl
      | succ k =>
        have h0 : ¬ IsCrossAt (a :: b :: t') 0 := hmin 0 (Nat.succ_pos k)
        have hcond : ¬ npSign b.2 - npSign a.2 = 2 := fun hcc =>
          h0 ((isCrossAt_zero a b t').mpr ((npSign_diff_eq_two_iff _ _).mp hcc))
        rw [hdef, if_neg hcond]
        have hk : IsCrossAt (b :: t') k := (isCrossAt_cons_succ a (b :: t') k).mp h
        have hkmin : ∀ j, j < k → ¬ IsCrossAt (b :: t') j := fun j hj hcr =>
          hmin (j + 1) (Nat.succ_lt_succ hj) ((isCrossAt_cons_succ a (b :: t') j).mpr hcr)
        rw [ih k hk hkmin]
        rfl

/-- Claim C2: the zero-gamma computation is `None` exactly when no adjacent
negative-to-positive sign crossing exists (in particular on any series of
length < 2, and a zero value is neither sign), and otherwise it returns the
linear interpolation at the first (lowest-strike) such crossing, ignoring
positive-to-negative crossings and later qualifying crossings. -/
theorem zero_gamma_characterization (series : List (ℚ × ℚ)) :
    (calculate_zero_gamma series = none ↔ ∀ i, ¬ IsCrossAt series i) ∧
    (∀ i, IsCrossAt series i → (∀ j, j < i → ¬ IsCrossAt series j) →
      calculate_zero_gamma series =
        some ((series.getD (i + 1) (0, 0)).1 -
          ((series.getD (i + 1) (0, 0)).1 - (series.getD i (0, 0)).1) *
            (series.getD (i + 1) (0, 0)).2 /
            ((series.getD (i + 1) (0, 0)).2 - (series.getD i (0, 0)).2))) := by
  constructor
  · rw [calculate_zero_gamma, Option.map_eq_none']
    exact findZeroCross_eq_none_iff series
  · intro i hi hmin
    rw [calculate_zero_gamma, findZeroCross_eq_some_of_first series i hi hmin]
    rfl

/-- Witness for C2: the crossing of `{100: -2, 105: 3}` interpolates to 102. -/
theorem zero_gamma_characterization_witness :
    calculate_zero_gamma [((100 : ℚ), (-2 : ℚ)), (105, 3)] = some 102 := by
  have h := (zero_gamma_characterization [((100 : ℚ), (-2 : ℚ)), (105, 3)]).2 0
    (by decide) (fun j hj => absurd hj (Nat.not_lt_zero j))
  rw [h]
  norm_num

/-- Claim C7: at any detected negative-to-positive crossing the
interpolation denominator `series[i+1] - series[i]` is nonzero, so the
division in the zero-gamma formula is well defined. -/
theorem cross_denominator_nonzero (series : List (ℚ × ℚ)) (i : ℕ)
    (h : IsCrossAt series i) :
    (series.getD (i + 1) (0, 0)).2 - (series.getD i (0, 0)).2 ≠ 0 := by
  obtain ⟨-, hneg, hpos⟩ := h
  have h₁ : (series.getD i (0, 0)).2 < 0 := (npSign_eq_neg_one_iff _).mp hneg
  have h₂ : 0 < (series.getD (i + 1) (0, 0)).2 := (npSign_eq_one_iff _).mp hpos
  exact ne_of_gt (by linarith)

/-- Witness for C7 at the concrete crossing of `[(1, -1), (2, 1)]`. -/
theorem cross_denominator_nonzero_witness :
    ([((1 : ℚ), (-1 : ℚ)), (2, 1)].getD (0 + 1) (0, 0)).2 -
      ([((1 : ℚ), (-1 : ℚ)), (2, 1)].getD 0 (0, 0)).2 ≠ 0 :=
  cross_denominator_nonzero [((1 : ℚ), (-1 : ℚ)), (2, 1)] 0 (by decide)

/-! ### Position of the interpolated zero gamma -/

lemma findZeroCross_decomp (series : List (ℚ × ℚ)) (p q : ℚ × ℚ)
    (h : findZeroCross series = some (p, q)) :
    ∃ l₁ l₂, series = l₁ ++ p :: q :: l₂ ∧ npSign p.2 = -1 ∧ npSign q.2 = 1 := by
  induction series with
  | nil => simp [findZeroCross] at h
  | cons a t ih =>
    cases t with
    | nil => simp [findZeroCross] at h
    | cons b t' =>
      have hdef : findZeroCross (a :: b :: t') =
          if npSign b.2 - npSign a.2 = 2 then some (a, b)
          else findZeroCross (b :: t') := rfl
      rw [hdef] at h
      by_cases hc : npSign b.2 - npSign a.2 = 2
      · rw [if_pos hc] at h
        obtain ⟨rfl, rfl⟩ : a = p ∧ b = q := by
          have := Option.some.inj h
          exact ⟨congrArg Prod.fst this, congrArg Prod.snd this⟩
        obtain ⟨hsa, hsb⟩ := (npSign_diff_eq_two_iff _ _).mp hc
        exact ⟨[], t', rfl, hsa, hsb⟩
      · rw [if_neg hc] at h
        obtain ⟨l₁, l₂, heq, hsp, hsq⟩ := ih h
        exact ⟨a :: l₁, l₂, by rw [List.cons_append, ← heq], hsp, hsq⟩

lemma sorted_head?_le {l : List (ℚ × ℚ)} (hs : (l.map (·.1)).Pairwise (· < ·))
    {x : ℚ × ℚ} (hx : x ∈ l) {a : ℚ × ℚ} (ha : l.head? = some a) : a.1 ≤ x.1 := by
  cases l with
  | nil => cases hx
  | cons c t =>
    obtain rfl : c = a := by simpa using ha
    rcases List.mem_cons.mp hx with rfl | hx'
    · exact le_refl _
    · rw [List.map_cons] at hs
      exact le_of_lt ((List.pairwise_cons.mp hs).1 x.1 (List.mem_map_of_mem _ hx'))

lemma sorted_getLast?_ge {l : List (ℚ × ℚ)} (hs : (l.map (·.1)).Pairwise (· < ·))
    {x : ℚ × ℚ} (hx : x ∈ l) {b : ℚ × ℚ} (hb : l.getLast? = some b) : x.1 ≤ b.1 := by
  induction l with
  | nil => cases hx
  | cons c t ih =>
    cases t with
    | nil =>
      have hxc : x = c := by simpa using hx
      have hcb : c = b := by simpa using hb
      exact le_of_eq (congrArg Prod.fst (hxc.trans hcb))
    | cons d t' =>
      rw [List.getLast?_cons_cons] at hb
      rw [List.map_cons] at hs
      have hs' := (List.pairwise_cons.mp hs).2
      rcases List.mem_cons.mp hx with rfl | hx'
      · obtain ⟨hne, hbl⟩ := List.mem_getLast?_eq_getLast hb
        have hbmem : b ∈ d :: t' := hbl ▸ List.getLast_mem hne
        exact le_of_lt ((List.pairwise_cons.mp hs).1 b.1 (List.mem_map_of_mem _ hbmem))
      · exact ih hs' hx' hb

lemma interp_between (ns nv ps pv : ℚ) (hnv : nv < 0) (hpv : 0 < pv) (hlt : ns < ps) :
    ns < ps - (ps - ns) * pv / (pv - nv) ∧ ps - (ps - ns) * pv / (pv - nv) < ps := by
  have hden : 0 < pv - nv := by linarith
  have ht0 : 0 < pv / (pv - nv) := div_pos hpv hden
  have ht1 : pv / (pv - nv) < 1 := (div_lt_one hden).mpr (by linarith)
  constructor
  · have hmul : (ps - ns) * (pv / (pv - nv)) < (ps - ns) * 1 :=
      mul_lt_mul_of_pos_left ht1 (by linarith)
    rw [mul_one] at hmul
    rw [mul_div_assoc]
    linarith
  · have hmul : 0 < (ps - ns) * (pv / (pv - nv)) := mul_pos (by linarith) ht0
    rw [mul_div_assoc]
    linarith

/-- Claim C10: whenever the zero-gamma computation returns a value on a
strictly-ascending-strike series, that value lies strictly between the two
strikes of the first negative-to-positive crossing, and hence within the
closed interval from the smallest (head) to the largest (last) strike. -/
theorem zero_gamma_in_range (series : List (ℚ × ℚ))
    (hsorted : (series.map (·.1)).Pairwise (· < ·)) (z : ℚ)
    (hz : calculate_zero_gamma series = some z) :
    ∃ p q, findZeroCross series = some (p, q) ∧ p.1 < z ∧ z < q.1 ∧
      (∀ a, series.head? = some a → a.1 ≤ z) ∧
      (∀ b, series.getLast? = some b → z ≤ b.1) := by
  rw [calculate_zero_gamma] at hz
  obtain ⟨⟨p, q⟩, hfind, hzval⟩ := Option.map_eq_some'.mp hz
  have hzval' : q.1 - (q.1 - p.1) * q.2 / (q.2 - p.2) = z := hzval
  obtain ⟨l₁, l₂, heq, hsp, hsq⟩ := findZeroCross_decomp series p q hfind
  have hnv : p.2 < 0 := (npSign_eq_neg_one_iff _).mp hsp
  have hpv : 0 < q.2 := (npSign_eq_one_iff _).mp hsq
  have hsub : ((p :: q :: l₂).map (·.1)).Sublist (series.map (·.1)) := by
    rw [heq, List.map_append]
    exact List.sublist_append_right _ _
  have hpw := List.Pairwise.sublist hsub hsorted
  rw [List.map_cons, List.map_cons] at hpw
  have hpq : p.1 < q.1 :=
    (List.pairwise_cons.mp hpw).1 q.1 (List.mem_cons_self _ _)
  obtain ⟨hlo, hhi⟩ := interp_between p.1 p.2 q.1 q.2 hnv hpv hpq
  rw [hzval'] at hlo hhi
  have hpmem : p ∈ series := by
    rw [heq]; exact List.mem_append_right _ (List.mem_cons_self _ _)
  have hqmem : q ∈ series := by
    rw [heq]
    exact List.mem_append_right _ (List.mem_cons_of_mem _ (List.mem_cons_self _ _))
  refine ⟨p, q, hfind, hlo, hhi, ?_, ?_⟩
  · intro a ha
    exact le_trans (sorted_head?_le hsorted hpmem ha) (le_of_lt hlo)
  · intro b hb
    exact le_trans (le_of_lt hhi) (sorted_getLast?_ge hsorted hqmem hb)

/-- Witness for C10 on the series `{100: -2, 105: 3}` with zero gamma 102. -/
theorem zero_gamma_in_range_witness :
    ∃ p q, findZeroCross [((100 : ℚ), (-2 : ℚ)), (105, 3)] = some (p, q) ∧
      p.1 < 102 ∧ (102 : ℚ) < q.1 ∧
      (∀ a, [((100 : ℚ), (-2 : ℚ)), (105, 3)].head? = some a → a.1 ≤ 102) ∧
      (∀ b, [((100 : ℚ), (-2 : ℚ)), (105, 3)].getLast? = some b → (102 : ℚ) ≤ b.1) :=
  zero_gamma_in_range [((100 : ℚ), (-2 : ℚ)), (105, 3)] (by decide) 102
    (by norm_num [calculate_zero_gamma, findZeroCross, npSign])

/-! ### Aggregation by strike -/

lemma gex_by_strike_keys (pairs : List (ℚ × ℚ)) :
    (calculate_gex_by_strike pairs).map (·.1) = strikeKeys pairs := by
  simp only [calculate_gex_by_strike, List.map_map]
  simp [Function.comp_def]

/-- Claim C3: the aggregation groups exposures by strike, sums each group,
divides by 1e9 and rounds to 3 decimals; its index is strictly ascending
and is exactly the set of distinct strikes of the input. -/
theorem gex_by_strike_spec (pairs : List (ℚ × ℚ)) :
    ((calculate_gex_by_strike pairs).map (·.1)).Sorted (· < ·) ∧
    (∀ k, k ∈ (calculate_gex_by_strike pairs).map (·.1) ↔ k ∈ pairs.map (·.1)) ∧
    (∀ kv, kv ∈ calculate_gex_by_strike pairs →
      kv.2 = round3 (((pairs.filter (fun p => p.1 = kv.1)).map (·.2)).sum / 10 ^ 9)) := by
  refine ⟨?_, ?_, ?_⟩
  · rw [gex_by_strike_keys]
    exact Finset.sort_sorted_lt _
  · intro k
    rw [gex_by_strike_keys]
    simp [strikeKeys, Finset.mem_sort, List.mem_toFinset]
  · intro kv hkv
    simp only [calculate_gex_by_strike, List.mem_map] at hkv
    obtain ⟨k, hk, rfl⟩ := hkv
    rfl

/-- Witness for C3 on the single-contract table `[(5, 2e9)]`. -/
theorem gex_by_strike_spec_witness :
    ((2 : ℚ) = round3 ((([((5 : ℚ), (2 * 10 ^ 9 : ℚ))].filter
        (fun p => p.1 = ((5 : ℚ), (2 : ℚ)).1)).map (·.2)).sum / 10 ^ 9)) ∧
    ((5 : ℚ) ∈ (calculate_gex_by_strike [((5 : ℚ), (2 * 10 ^ 9 : ℚ))]).map (·.1) ↔
      (5 : ℚ) ∈ [((5 : ℚ), (2 * 10 ^ 9 : ℚ))].map (·.1)) :=
  ⟨(gex_by_strike_spec [((5 : ℚ), (2 * 10 ^ 9 : ℚ))]).2.2 (5, 2) (by
      norm_num [calculate_gex_by_strike, strikeKeys, round3]),
    (gex_by_strike_spec [((5 : ℚ), (2 * 10 ^ 9 : ℚ))]).2.1 5⟩

/-! ### Net exposure versus the aggregated series -/

lemma round3_close (x : ℚ) : |x - round3 x| ≤ 1 / 2000 := by
  have h := abs_sub_round (x * 1000)
  have heq : x - round3 x = (x * 1000 - (round (x * 1000) : ℚ)) / 1000 := by
    unfold round3; ring
  rw [heq, abs_div, abs_of_pos (by norm_num : (0 : ℚ) < 1000)]
  linarith

lemma sum_filter_key (pairs : List (ℚ × ℚ)) (keys : Finset ℚ)
    (hk : ∀ p ∈ pairs, p.1 ∈ keys) :
    ∑ k in keys, ((pairs.filter (fun p => p.1 = k)).map (·.2)).sum =
      (pairs.map (·.2)).sum := by
  induction pairs with
  | nil => simp
  | cons p ps ih =>
    have hps : ∀ q ∈ ps, q.1 ∈ keys := fun q hq => hk q (List.mem_cons_of_mem _ hq)
    have hp : p.1 ∈ keys := hk p (List.mem_cons_self _ _)
    have hsplit : ∀ k : ℚ, (((p :: ps).filter (fun q => q.1 = k)).map (·.2)).sum =
        (if p.1 = k then p.2 else 0) + ((ps.filter (fun q => q.1 = k)).map (·.2)).sum := by
      intro k
      by_cases h : p.1 = k
      · simp [List.filter_cons, h]
      · simp [List.filter_cons, h]
    simp only [hsplit, Finset.sum_add_distrib, ih hps]
    rw [Finset.sum_ite_eq keys p.1 (fun _ => p.2), if_pos hp]
    simp

lemma agg_values_eq (pairs : List (ℚ × ℚ)) :
    ((calculate_gex_by_strike pairs).map (·.2)).sum =
      ∑ k in (pairs.map (·.1)).toFinset,
        round3 (((pairs.filter (fun p => p.1 = k)).map (·.2)).sum / 10 ^ 9) := by
  have hmap : (calculate_gex_by_strike pairs).map (·.2) =
      (strikeKeys pairs).map
        (fun k => round3 (((pairs.filter (fun p => p.1 = k)).map (·.2)).sum / 10 ^ 9)) := by
    simp only [calculate_gex_by_strike, List.map_map]
    simp [Function.comp_def]
  rw [hmap, strikeKeys, ← List.sum_toFinset _ (Finset.sort_nodup _ _), Finset.sort_toFinset]

lemma net_close_aux (pairs : List (ℚ × ℚ)) :
    |round3 ((pairs.map (·.2)).sum / 10 ^ 9) - ((calculate_gex_by_strike pairs).map (·.2)).sum| ≤
      ((calculate_gex_by_strike pairs).length : ℚ) * (1 / 1000) := by
  by_cases hemp : pairs = []
  · subst hemp
    simp [calculate_gex_by_strike, strikeKeys, round3]
  · set s : Finset ℚ := (pairs.map (·.1)).toFinset with hs
    set g : ℚ → ℚ :=
      fun k => ((pairs.filter (fun p => p.1 = k)).map (·.2)).sum / 10 ^ 9 with hg
    have hlen : (calculate_gex_by_strike pairs).length = s.card := by
      simp [calculate_gex_by_strike, strikeKeys, Finset.length_sort, hs]
    have hcard : 1 ≤ s.card := by
      obtain ⟨p, hp⟩ := List.exists_mem_of_ne_nil pairs hemp
      exact Finset.card_pos.mpr ⟨p.1, List.mem_toFinset.mpr (List.mem_map_of_mem _ hp)⟩
    have htotal : (pairs.map (·.2)).sum / 10 ^ 9 = ∑ k in s, g k := by
      rw [hg]
      rw [← Finset.sum_div,
        sum_filter_key pairs s (fun p hp => List.mem_toFinset.mpr (List.mem_map_of_mem _ hp))]
    have hagg : ((calculate_gex_by_strike pairs).map (·.2)).sum =
        ∑ k in s, round3 (g k) := agg_values_eq pairs
    rw [htotal, hagg, hlen]
    have ha := round3_close (∑ k in s, g k)
    have hb : |∑ k in s, (g k - round3 (g k))| ≤ ∑ k in s, |g k - round3 (g k)| :=
      Finset.abs_sum_le_sum_abs _ _
    have hc : ∑ k in s, |g k - round3 (g k)| ≤ ∑ _k in s, (1 / 2000 : ℚ) :=
      Finset.sum_le_sum fun k _ => round3_close (g k)
    have hd : ∑ _k in s, (1 / 2000 : ℚ) = (s.card : ℚ) * (1 / 2000) := by
      simp [Finset.sum_const, nsmul_eq_mul]
    have hsub : (∑ k in s, g k) - ∑ k in s, round3 (g k) =
        ∑ k in s, (g k - round3 (g k)) := by
      rw [Finset.sum_sub_distrib]
    have htri : |round3 (∑ k in s, g k) - ∑ k in s, round3 (g k)| ≤
        |(∑ k in s, g k) - round3 (∑ k in s, g k)| +
          |(∑ k in s, g k) - ∑ k in s, round3 (g k)| := by
      rw [abs_sub_comm (∑ k in s, g k) (round3 (∑ k in s, g k))]
      exact abs_sub_le _ _ _
    have hone : (1 : ℚ) ≤ (s.card : ℚ) := by exact_mod_cast hcard
    rw [hsub] at htri
    calc |round3 (∑ k in s, g k) - ∑ k in s, round3 (g k)|
        ≤ |(∑ k in s, g k) - round3 (∑ k in s, g k)| +
            |∑ k in s, (g k - round3 (g k))| := htri
      _ ≤ 1 / 2000 + (s.card : ℚ) * (1 / 2000) := by
          have := le_trans hb (le_trans hc (le_of_eq hd))
          linarith
      _ ≤ (s.card : ℚ) * (1 / 1000) := by linarith

/-- Claim C4: the net exposure is the sum of the ungrouped per-contract
exposures divided by 1e9 and rounded to 3 decimals, and it agrees with the
sum of the aggregated-by-strike series up to 0.001 per strike accumulated
over the number of strikes. -/
theorem net_gex_vs_aggregate (pairs : List (ℚ × ℚ)) :
    calculate_net_gex (pairs.map (·.2)) = round3 ((pairs.map (·.2)).sum / 10 ^ 9) ∧
    |calculate_net_gex (pairs.map (·.2)) - ((calculate_gex_by_strike pairs).map (·.2)).sum| ≤
      ((calculate_gex_by_strike pairs).length : ℚ) * (1 / 1000) :=
  ⟨rfl, net_close_aux pairs⟩
